import Mathlib

/-!
# SAF-T balance-consolidation engine: verification of the spec claims

Shallow embedding of the balance-consolidation core of the `saft-reporting`
repository (`src/transformers/certinia_transformer.py`), with theorems settling
the frozen claims about the period-window accumulator, the net-value extractor,
the period-key resolver and the same-side normalizer.

Amounts are modelled as exact rationals (the spec's `Decimal`): the IEEE-754
rounding of the source's `float` additions is deliberately not modelled, so
properties that hinge on rounding (such as exact order-independence of the
sums) are outside this development's scope.  Loosely typed record fields are
modelled with explicit optional/tagged values; the one uncaught exception path
of the source (`ValueError` from tuple unpacking in `_get_period_number`) is
modelled by `Option`, `none` meaning the run aborts.
-/

namespace SaftReporting

/-- A loosely-typed numeric field of a transaction-line record, as it reaches
`_parse_decimal`: absent (`Dict.get` returned `None`), the empty string,
well-formed numeric text with value `q`, or malformed non-numeric text. -/
inductive PyValue where
  | none : PyValue
  | emptyStr : PyValue
  | num (q : ℚ) : PyValue
  | malformed : PyValue
deriving DecidableEq, Repr

/-- `CertiniaTransformer._parse_decimal`: `None` and `''` parse to `0.0`,
numeric text parses to its value, and a `ValueError`/`TypeError` from `float()`
is caught and resolves to `0.0` (the function never raises). -/
def parseDecimal : PyValue → ℚ
  | .none => 0
  | .emptyStr => 0
  | .num q => q
  | .malformed => 0

/-- One transaction line (`c2g__TransactionLineItem__c` record) as consumed by
`_calculate_all_balances`.  `generalLedgerAccount` models
`line.get('c2g__GeneralLedgerAccount__c')` and `account` models
`line.get('c2g__Account__c')` (`none` = key absent / `None`; `some ""` is the
falsy empty string).  `periodName` models the nested
`c2g__Transaction__r.c2g__Period__r.Name` access of `_get_period_number`:
`none` stands for any missing level of nesting and `some s` for the `Name`
value (the `.get('Name', '')` default is `some ""`). -/
structure TransactionLine where
  generalLedgerAccount : Option String
  account : Option String
  homeValue : PyValue
  homeDebits : PyValue
  homeCredits : PyValue
  periodName : Option String
deriving DecidableEq, Repr

/-- Python truthiness of an optional string id (`if not gl_account_id`):
`None` and `''` are falsy. -/
def truthy : Option String → Bool
  | Option.none => false
  | some s => if s = "" then false else true

/-- The string content of an optional id (used only when `truthy`). -/
def keyOf (o : Option String) : String := o.getD ""

/-- `CertiniaTransformer._get_net_value`: prefer `c2g__HomeValue__c` when it is
present and non-empty (`is not None and != ''`), otherwise fall back to
`c2g__HomeDebits__c - c2g__HomeCredits__c` with missing fields defaulted to 0.
Total: malformed text resolves to 0 through `_parse_decimal`. -/
def getNetValue (l : TransactionLine) : ℚ :=
  match l.homeValue with
  | .none => parseDecimal l.homeDebits - parseDecimal l.homeCredits
  | .emptyStr => parseDecimal l.homeDebits - parseDecimal l.homeCredits
  | v => parseDecimal v

/-- Python's `period_name.split('/')` for the one-character separator `'/'`:
splits on every occurrence, keeping empty pieces. -/
def splitSlash : List Char → List (List Char)
  | [] => [[]]
  | c :: rest =>
    match splitSlash rest with
    | [] => [[]]
    | h :: t => if c = '/' then [] :: h :: t else (c :: h) :: t

/-- `CertiniaTransformer._get_period_number`: read the period `Name`
(`'YYYY/NNN'`), and when it is non-empty and contains a `'/'` return the
concatenation of the two pieces (`'2024/001'` → `'2024001'`); otherwise return
`''`.  The source's `year, period_num = period_name.split('/')` unpacking
raises an uncaught `ValueError` when the name holds two or more slashes; that
abort is modelled as `Option.none`. -/
def getPeriodNumber (l : TransactionLine) : Option String :=
  match l.periodName with
  | Option.none => some ""
  | some name =>
    if name = "" then some ""
    else if name.data.contains '/' then
      match splitSlash name.data with
      | [y, p] => some (String.mk (y ++ p))
      | _ => Option.none
    else some ""

/-- The reporting window of `_get_period_info`, reduced to the two boundary
keys `f"{start_period_year}{start_period:03d}"` and
`f"{period_year}{period:03d}"` that `_calculate_all_balances` compares
against. -/
structure PeriodConfig where
  startKey : String
  endKey : String
deriving DecidableEq, Repr

/-- The mutable scratch state of one `_calculate_all_balances` pass: the eight
per-account running sums (a Python `dict` with `get(k, 0.0)` defaults is the
total function that is `0` off its support) and the five statistics counters
that the run logs at the end. -/
@[ext]
structure AccState where
  glOpeningDebits : String → ℚ
  glOpeningCredits : String → ℚ
  glClosingDebits : String → ℚ
  glClosingCredits : String → ℚ
  accOpeningDebits : String → ℚ
  accOpeningCredits : String → ℚ
  accClosingDebits : String → ℚ
  accClosingCredits : String → ℚ
  skippedNoGlAccount : ℕ
  skippedNoAccount : ℕ
  skippedNoPeriod : ℕ
  processedOpening : ℕ
  processedClosing : ℕ

/-- `d[k] = d.get(k, 0.0) + v`. -/
def addTo (m : String → ℚ) (k : String) (v : ℚ) : String → ℚ :=
  fun a => if a = k then m a + v else m a

/-- All-empty accumulators and zeroed counters, as initialized at the top of
`_calculate_all_balances`. -/
def initState : AccState :=
  ⟨fun _ => 0, fun _ => 0, fun _ => 0, fun _ => 0,
   fun _ => 0, fun _ => 0, fun _ => 0, fun _ => 0, 0, 0, 0, 0, 0⟩

/-- Python `<` on single characters: comparison of code points. -/
def charLtB (a b : Char) : Bool := a.toNat < b.toNat

/-- Python `<` on strings as lists of characters: lexicographic comparison by
code point, a shorter string that is a proper initial segment comparing
smaller. -/
def listLtB : List Char → List Char → Bool
  | [], [] => false
  | [], _ :: _ => true
  | _ :: _, [] => false
  | a :: as, b :: bs =>
    if charLtB a b then true
    else if charLtB b a then false
    else listLtB as bs

/-- Python `period_number < start_period_number` (string comparison). -/
def strLtB (s t : String) : Bool := listLtB s.data t.data

/-- Python `period_number <= end_period_number`: `s <= t` iff `s < t` or
`s == t`. -/
def strLeB (s t : String) : Bool := strLtB s t || s == t

/-- The loop body of `_calculate_all_balances` (lines 279-326) applied to one
transaction line: count missing ids, compute net value and period key, skip
(and count) lines with an empty period key, and otherwise accumulate the line
into the opening sums when `period_number < start` and into the closing sums
when `period_number <= end`, on the debit side when the net value is positive
and on the credit side (as `abs`) when negative — once keyed by the GL account
and once keyed by the business-partner (`c2g__Account__c`) id.  `Option.none`
propagates the uncaught `ValueError` of `_get_period_number`. -/
def stepLine (cfg : PeriodConfig) (s : AccState) (l : TransactionLine) :
    Option AccState :=
  let glOk := truthy l.generalLedgerAccount
  let accOk := truthy l.account
  let glId := keyOf l.generalLedgerAccount
  let accId := keyOf l.account
  let s1 : AccState := { s with
    skippedNoGlAccount :=
      if glOk then s.skippedNoGlAccount else s.skippedNoGlAccount + 1,
    skippedNoAccount :=
      if accOk then s.skippedNoAccount else s.skippedNoAccount + 1 }
  let net := getNetValue l
  match getPeriodNumber l with
  | Option.none => Option.none
  | some pk =>
    if pk = "" then
      some { s1 with skippedNoPeriod := s1.skippedNoPeriod + 1 }
    else
      let isOpening := strLtB pk cfg.startKey
      let isClosing := strLeB pk cfg.endKey
      let s2 :=
        if glOk then
          let s2a :=
            if isOpening then
              if net > 0 then
                { s1 with glOpeningDebits := addTo s1.glOpeningDebits glId net }
              else if net < 0 then
                { s1 with glOpeningCredits := addTo s1.glOpeningCredits glId |net| }
              else s1
            else s1
          if isClosing then
            if net > 0 then
              { s2a with glClosingDebits := addTo s2a.glClosingDebits glId net }
            else if net < 0 then
              { s2a with glClosingCredits := addTo s2a.glClosingCredits glId |net| }
            else s2a
          else s2a
        else s1
      let s3 :=
        if accOk then
          let s3a :=
            if isOpening then
              let t :=
                if net > 0 then
                  { s2 with accOpeningDebits := addTo s2.accOpeningDebits accId net }
                else if net < 0 then
                  { s2 with accOpeningCredits := addTo s2.accOpeningCredits accId |net| }
                else s2
              { t with processedOpening := t.processedOpening + 1 }
            else s2
          if isClosing then
            let t :=
              if net > 0 then
                { s3a with accClosingDebits := addTo s3a.accClosingDebits accId net }
              else if net < 0 then
                { s3a with accClosingCredits := addTo s3a.accClosingCredits accId |net| }
              else s3a
            { t with processedClosing := t.processedClosing + 1 }
          else s3a
        else s2
      some s3

/-- The single pass of `_calculate_all_balances` over the whole collection. -/
def runLines (cfg : PeriodConfig) (lines : List TransactionLine) :
    Option AccState :=
  lines.foldlM (stepLine cfg) initState

/-- The four balance fields as produced by
`_convert_debit_credit_to_net_position` for one account. -/
structure Balance where
  openingDebitBalance : ℚ
  openingCreditBalance : ℚ
  closingDebitBalance : ℚ
  closingCreditBalance : ℚ
deriving DecidableEq, Repr

/-- The per-account body of `_convert_debit_credit_to_net_position`
(lines 476-522): compute `opening_net = opening_debit - opening_credit` and
`closing_net = closing_debit - closing_credit`; the sign of the closing net
picks the side for both opening and closing; on a zero closing net the sign of
the opening net picks the side, and when both nets are zero all four fields
are zero (the zero balance sits on the debit side). -/
def convertDebitCreditToNetPosition
    (openingDebit openingCredit closingDebit closingCredit : ℚ) : Balance :=
  let openingNet := openingDebit - openingCredit
  let closingNet := closingDebit - closingCredit
  if closingNet > 0 then
    ⟨|openingNet|, 0, closingNet, 0⟩
  else if closingNet < 0 then
    ⟨0, |openingNet|, 0, |closingNet|⟩
  else if openingNet > 0 then
    ⟨openingNet, 0, 0, 0⟩
  else if openingNet < 0 then
    ⟨0, |openingNet|, 0, 0⟩
  else
    ⟨0, 0, 0, 0⟩

/-- `_calculate_all_balances` end to end: run the single pass and normalize
every account's raw sums, for both grouping dimensions.  The Python function
returns dicts holding only the accounts that appear in some accumulator, and
callers default a missing account to the all-zero balance; since
`convertDebitCreditToNetPosition 0 0 0 0` is the all-zero balance, the total
functions returned here are extensionally that same mapping (this also covers
the `if not transaction_lines: return {}, {}` early exit). -/
def calculateAllBalances (cfg : PeriodConfig) (lines : List TransactionLine) :
    Option ((String → Balance) × (String → Balance)) :=
  (runLines cfg lines).map (fun s =>
    (fun a => convertDebitCreditToNetPosition (s.glOpeningDebits a)
        (s.glOpeningCredits a) (s.glClosingDebits a) (s.glClosingCredits a),
     fun a => convertDebitCreditToNetPosition (s.accOpeningDebits a)
        (s.accOpeningCredits a) (s.accClosingDebits a) (s.accClosingCredits a)))

/-! ## Derived views of the step function -/

/-- The period key a line resolves to (meaningful on non-aborting lines). -/
def resolvedKey (l : TransactionLine) : String := (getPeriodNumber l).getD ""

/-- Whether the line makes it through `_get_period_number` without the
uncaught `ValueError`. -/
def lineOk (l : TransactionLine) : Bool := (getPeriodNumber l).isSome

/-- Opening-window membership used by the accumulator: a resolvable, non-empty
period key strictly below the window start. -/
def inOpening (cfg : PeriodConfig) (l : TransactionLine) : Bool :=
  if resolvedKey l = "" then false else strLtB (resolvedKey l) cfg.startKey

/-- Closing-window membership used by the accumulator: a resolvable, non-empty
period key at or below the window end. -/
def inClosing (cfg : PeriodConfig) (l : TransactionLine) : Bool :=
  if resolvedKey l = "" then false else strLeB (resolvedKey l) cfg.endKey

/-- The positive part of a net value: what a debit accumulator receives. -/
def posPart (q : ℚ) : ℚ := if q > 0 then q else 0

/-- The absolute value of the negative part: what a credit accumulator
receives. -/
def negPart (q : ℚ) : ℚ := if q < 0 then |q| else 0

/-- What one line adds to a per-account sum at account `a`: its value `v` when
the id is usable, the window test passes and `a` is the line's key. -/
def mapContrib (idOk : Bool) (k : String) (flag : Bool) (v : ℚ) (a : String) : ℚ :=
  if idOk && flag && (a == k) then v else 0

/-- The successful-step function: the state after one loop iteration on a line
that does not abort the run. -/
def stepOk (cfg : PeriodConfig) (s : AccState) (l : TransactionLine) : AccState :=
  (stepLine cfg s l).getD s

/-! ## Order facts about the Python string comparison -/

theorem charLtB_irrefl (a : Char) : charLtB a a = false := by
  simp [charLtB]

theorem listLtB_irrefl (l : List Char) : listLtB l l = false := by
  induction l with
  | nil => rfl
  | cons a as ih => simp [listLtB, charLtB_irrefl, ih]

theorem strLtB_irrefl (s : String) : strLtB s s = false :=
  listLtB_irrefl s.data

theorem listLtB_trans {a b c : List Char} (hab : listLtB a b = true)
    (hbc : listLtB b c = true) : listLtB a c = true := by
  induction a generalizing b c with
  | nil =>
    cases c with
    | nil =>
      cases b with
      | nil => exact hab
      | cons b0 bs => simp [listLtB] at hbc
    | cons c0 cs => simp [listLtB]
  | cons a0 as ih =>
    cases b with
    | nil => simp [listLtB] at hab
    | cons b0 bs =>
      cases c with
      | nil => simp [listLtB] at hbc
      | cons c0 cs =>
        simp only [listLtB, charLtB] at hab hbc ⊢
        by_cases h1 : a0.toNat < b0.toNat
        · by_cases h2 : b0.toNat < c0.toNat
          · simp [show a0.toNat < c0.toNat by omega]
          · by_cases h4 : c0.toNat < b0.toNat
            · simp [h2, h4] at hbc
            · simp [show a0.toNat < c0.toNat by omega]
        · by_cases h3 : b0.toNat < a0.toNat
          · simp [h1, h3] at hab
          · by_cases h2 : b0.toNat < c0.toNat
            · simp [show a0.toNat < c0.toNat by omega]
            · by_cases h4 : c0.toNat < b0.toNat
              · simp [h2, h4] at hbc
              · have hac : ¬ a0.toNat < c0.toNat := by omega
                have hca : ¬ c0.toNat < a0.toNat := by omega
                simp only [h1, h3, if_false, decide_eq_true_eq] at hab
                simp only [h2, h4, if_false, decide_eq_true_eq] at hbc
                simp only [hac, hca, if_false, decide_eq_true_eq]
                exact ih hab hbc

theorem strLeB_refl (s : String) : strLeB s s = true := by
  simp [strLeB]

theorem strLtB_strLeB_trans {a b c : String} (hab : strLtB a b = true)
    (hbc : strLeB b c = true) : strLeB a c = true := by
  rcases Bool.or_eq_true_iff.mp hbc with h | h
  · exact Bool.or_eq_true_iff.mpr (Or.inl (listLtB_trans hab h))
  · exact Bool.or_eq_true_iff.mpr (Or.inl (by rwa [← beq_iff_eq.mp h]))

/-! ## Step characterization -/

theorem stepLine_eq_none (cfg : PeriodConfig) (s : AccState)
    {l : TransactionLine} (h : lineOk l = false) :
    stepLine cfg s l = Option.none := by
  cases hpn : getPeriodNumber l with
  | none => simp only [stepLine, hpn]
  | some pk => simp [lineOk, hpn] at h

theorem stepLine_eq_some (cfg : PeriodConfig) (s : AccState)
    {l : TransactionLine} (h : lineOk l = true) :
    stepLine cfg s l = some (stepOk cfg s l) := by
  unfold stepOk
  cases hpn : getPeriodNumber l with
  | none => simp [lineOk, hpn] at h
  | some pk =>
    simp only [stepLine, hpn]
    by_cases hpk : pk = "" <;> simp [hpk]

theorem stepOk_glOpeningDebits (cfg : PeriodConfig) (s : AccState)
    {l : TransactionLine} (h : lineOk l = true) (a : String) :
    (stepOk cfg s l).glOpeningDebits a =
      s.glOpeningDebits a +
        mapContrib (truthy l.generalLedgerAccount) (keyOf l.generalLedgerAccount)
          (inOpening cfg l) (posPart (getNetValue l)) a := by
  unfold stepOk
  cases hpn : getPeriodNumber l with
  | none => simp [lineOk, hpn] at h
  | some pk =>
    simp only [stepLine, hpn]
    by_cases hpk : pk = ""
    · simp [hpk, mapContrib, inOpening, resolvedKey, hpn]
    · by_cases hgl : truthy l.generalLedgerAccount <;>
      by_cases hacc : truthy l.account <;>
      by_cases hop : strLtB pk cfg.startKey <;>
      by_cases hcl : strLeB pk cfg.endKey <;>
      by_cases hpos : getNetValue l > 0 <;>
      by_cases hneg : getNetValue l < 0 <;>
      simp [hpk, hgl, hacc, hop, hcl, hpos, hneg, mapContrib, inOpening,
        inClosing, resolvedKey, hpn, addTo, posPart] <;>
      by_cases ha : a = keyOf l.generalLedgerAccount <;>
      simp [ha]

theorem stepOk_glOpeningCredits (cfg : PeriodConfig) (s : AccState)
    {l : TransactionLine} (h : lineOk l = true) (a : String) :
    (stepOk cfg s l).glOpeningCredits a =
      s.glOpeningCredits a +
        mapContrib (truthy l.generalLedgerAccount) (keyOf l.generalLedgerAccount)
          (inOpening cfg l) (negPart (getNetValue l)) a := by
  unfold stepOk
  cases hpn : getPeriodNumber l with
  | none => simp [lineOk, hpn] at h
  | some pk =>
    simp only [stepLine, hpn]
    by_cases hpk : pk = ""
    · simp [hpk, mapContrib, inOpening, resolvedKey, hpn]
    · by_cases hgl : truthy l.generalLedgerAccount <;>
      by_cases hacc : truthy l.account <;>
      by_cases hop : strLtB pk cfg.startKey <;>
      by_cases hcl : strLeB pk cfg.endKey <;>
      by_cases hpos : getNetValue l > 0 <;>
      by_cases hneg : getNetValue l < 0 <;>
      simp [hpk, hgl, hacc, hop, hcl, hpos, hneg, mapContrib, inOpening,
        inClosing, resolvedKey, hpn, addTo, negPart] <;>
      by_cases ha : a = keyOf l.generalLedgerAccount <;>
      simp [ha] <;> linarith

theorem stepOk_glClosingDebits (cfg : PeriodConfig) (s : AccState)
    {l : TransactionLine} (h : lineOk l = true) (a : String) :
    (stepOk cfg s l).glClosingDebits a =
      s.glClosingDebits a +
        mapContrib (truthy l.generalLedgerAccount) (keyOf l.generalLedgerAccount)
          (inClosing cfg l) (posPart (getNetValue l)) a := by
  unfold stepOk
  cases hpn : getPeriodNumber l with
  | none => simp [lineOk, hpn] at h
  | some pk =>
    simp only [stepLine, hpn]
    by_cases hpk : pk = ""
    · simp [hpk, mapContrib, inClosing, resolvedKey, hpn]
    · by_cases hgl : truthy l.generalLedgerAccount <;>
      by_cases hacc : truthy l.account <;>
      by_cases hop : strLtB pk cfg.startKey <;>
      by_cases hcl : strLeB pk cfg.endKey <;>
      by_cases hpos : getNetValue l > 0 <;>
      by_cases hneg : getNetValue l < 0 <;>
      simp [hpk, hgl, hacc, hop, hcl, hpos, hneg, mapContrib, inOpening,
        inClosing, resolvedKey, hpn, addTo, posPart] <;>
      by_cases ha : a = keyOf l.generalLedgerAccount <;>
      simp [ha]

theorem stepOk_glClosingCredits (cfg : PeriodConfig) (s : AccState)
    {l : TransactionLine} (h : lineOk l = true) (a : String) :
    (stepOk cfg s l).glClosingCredits a =
      s.glClosingCredits a +
        mapContrib (truthy l.generalLedgerAccount) (keyOf l.generalLedgerAccount)
          (inClosing cfg l) (negPart (getNetValue l)) a := by
  unfold stepOk
  cases hpn : getPeriodNumber l with
  | none => simp [lineOk, hpn] at h
  | some pk =>
    simp only [stepLine, hpn]
    by_cases hpk : pk = ""
    · simp [hpk, mapContrib, inClosing, resolvedKey, hpn]
    · by_cases hgl : truthy l.generalLedgerAccount <;>
      by_cases hacc : truthy l.account <;>
      by_cases hop : strLtB pk cfg.startKey <;>
      by_cases hcl : strLeB pk cfg.endKey <;>
      by_cases hpos : getNetValue l > 0 <;>
      by_cases hneg : getNetValue l < 0 <;>
      simp [hpk, hgl, hacc, hop, hcl, hpos, hneg, mapContrib, inOpening,
        inClosing, resolvedKey, hpn, addTo, negPart] <;>
      by_cases ha : a = keyOf l.generalLedgerAccount <;>
      simp [ha] <;> linarith

theorem stepOk_accOpeningDebits (cfg : PeriodConfig) (s : AccState)
    {l : TransactionLine} (h : lineOk l = true) (a : String) :
    (stepOk cfg s l).accOpeningDebits a =
      s.accOpeningDebits a +
        mapContrib (truthy l.account) (keyOf l.account)
          (inOpening cfg l) (posPart (getNetValue l)) a := by
  unfold stepOk
  cases hpn : getPeriodNumber l with
  | none => simp [lineOk, hpn] at h
  | some pk =>
    simp only [stepLine, hpn]
    by_cases hpk : pk = ""
    · simp [hpk, mapContrib, inOpening, resolvedKey, hpn]
    · by_cases hgl : truthy l.generalLedgerAccount <;>
      by_cases hacc : truthy l.account <;>
      by_cases hop : strLtB pk cfg.startKey <;>
      by_cases hcl : strLeB pk cfg.endKey <;>
      by_cases hpos : getNetValue l > 0 <;>
      by_cases hneg : getNetValue l < 0 <;>
      simp [hpk, hgl, hacc, hop, hcl, hpos, hneg, mapContrib, inOpening,
        inClosing, resolvedKey, hpn, addTo, posPart] <;>
      by_cases ha : a = keyOf l.account <;>
      simp [ha]

theorem stepOk_accOpeningCredits (cfg : PeriodConfig) (s : AccState)
    {l : TransactionLine} (h : lineOk l = true) (a : String) :
    (stepOk cfg s l).accOpeningCredits a =
      s.accOpeningCredits a +
        mapContrib (truthy l.account) (keyOf l.account)
          (inOpening cfg l) (negPart (getNetValue l)) a := by
  unfold stepOk
  cases hpn : getPeriodNumber l with
  | none => simp [lineOk, hpn] at h
  | some pk =>
    simp only [stepLine, hpn]
    by_cases hpk : pk = ""
    · simp [hpk, mapContrib, inOpening, resolvedKey, hpn]
    · by_cases hgl : truthy l.generalLedgerAccount <;>
      by_cases hacc : truthy l.account <;>
      by_cases hop : strLtB pk cfg.startKey <;>
      by_cases hcl : strLeB pk cfg.endKey <;>
      by_cases hpos : getNetValue l > 0 <;>
      by_cases hneg : getNetValue l < 0 <;>
      simp [hpk, hgl, hacc, hop, hcl, hpos, hneg, mapContrib, inOpening,
        inClosing, resolvedKey, hpn, addTo, negPart] <;>
      by_cases ha : a = keyOf l.account <;>
      simp [ha] <;> linarith

theorem stepOk_accClosingDebits (cfg : PeriodConfig) (s : AccState)
    {l : TransactionLine} (h : lineOk l = true) (a : String) :
    (stepOk cfg s l).accClosingDebits a =
      s.accClosingDebits a +
        mapContrib (truthy l.account) (keyOf l.account)
          (inClosing cfg l) (posPart (getNetValue l)) a := by
  unfold stepOk
  cases hpn : getPeriodNumber l with
  | none => simp [lineOk, hpn] at h
  | some pk =>
    simp only [stepLine, hpn]
    by_cases hpk : pk = ""
    · simp [hpk, mapContrib, inClosing, resolvedKey, hpn]
    · by_cases hgl : truthy l.generalLedgerAccount <;>
      by_cases hacc : truthy l.account <;>
      by_cases hop : strLtB pk cfg.startKey <;>
      by_cases hcl : strLeB pk cfg.endKey <;>
      by_cases hpos : getNetValue l > 0 <;>
      by_cases hneg : getNetValue l < 0 <;>
      simp [hpk, hgl, hacc, hop, hcl, hpos, hneg, mapContrib, inOpening,
        inClosing, resolvedKey, hpn, addTo, posPart] <;>
      by_cases ha : a = keyOf l.account <;>
      simp [ha]

theorem stepOk_accClosingCredits (cfg : PeriodConfig) (s : AccState)
    {l : TransactionLine} (h : lineOk l = true) (a : String) :
    (stepOk cfg s l).accClosingCredits a =
      s.accClosingCredits a +
        mapContrib (truthy l.account) (keyOf l.account)
          (inClosing cfg l) (negPart (getNetValue l)) a := by
  unfold stepOk
  cases hpn : getPeriodNumber l with
  | none => simp [lineOk, hpn] at h
  | some pk =>
    simp only [stepLine, hpn]
    by_cases hpk : pk = ""
    · simp [hpk, mapContrib, inClosing, resolvedKey, hpn]
    · by_cases hgl : truthy l.generalLedgerAccount <;>
      by_cases hacc : truthy l.account <;>
      by_cases hop : strLtB pk cfg.startKey <;>
      by_cases hcl : strLeB pk cfg.endKey <;>
      by_cases hpos : getNetValue l > 0 <;>
      by_cases hneg : getNetValue l < 0 <;>
      simp [hpk, hgl, hacc, hop, hcl, hpos, hneg, mapContrib, inOpening,
        inClosing, resolvedKey, hpn, addTo, negPart] <;>
      by_cases ha : a = keyOf l.account <;>
      simp [ha] <;> linarith

theorem stepOk_skippedNoGlAccount (cfg : PeriodConfig) (s : AccState)
    {l : TransactionLine} (h : lineOk l = true) :
    (stepOk cfg s l).skippedNoGlAccount =
      s.skippedNoGlAccount + (if truthy l.generalLedgerAccount then 0 else 1) := by
  unfold stepOk
  cases hpn : getPeriodNumber l with
  | none => simp [lineOk, hpn] at h
  | some pk =>
    simp only [stepLine, hpn]
    by_cases hpk : pk = ""
    · by_cases hgl : truthy l.generalLedgerAccount <;> simp [hpk, hgl]
    · by_cases hgl : truthy l.generalLedgerAccount <;>
      by_cases hacc : truthy l.account <;>
      by_cases hop : strLtB pk cfg.startKey <;>
      by_cases hcl : strLeB pk cfg.endKey <;>
      by_cases hpos : getNetValue l > 0 <;>
      by_cases hneg : getNetValue l < 0 <;>
      simp [hpk, hgl, hacc, hop, hcl, hpos, hneg]

theorem stepOk_skippedNoAccount (cfg : PeriodConfig) (s : AccState)
    {l : TransactionLine} (h : lineOk l = true) :
    (stepOk cfg s l).skippedNoAccount =
      s.skippedNoAccount + (if truthy l.account then 0 else 1) := by
  unfold stepOk
  cases hpn : getPeriodNumber l with
  | none => simp [lineOk, hpn] at h
  | some pk =>
    simp only [stepLine, hpn]
    by_cases hpk : pk = ""
    · by_cases hacc : truthy l.account <;> simp [hpk, hacc]
    · by_cases hgl : truthy l.generalLedgerAccount <;>
      by_cases hacc : truthy l.account <;>
      by_cases hop : strLtB pk cfg.startKey <;>
      by_cases hcl : strLeB pk cfg.endKey <;>
      by_cases hpos : getNetValue l > 0 <;>
      by_cases hneg : getNetValue l < 0 <;>
      simp [hpk, hgl, hacc, hop, hcl, hpos, hneg]

theorem stepOk_skippedNoPeriod (cfg : PeriodConfig) (s : AccState)
    {l : TransactionLine} (h : lineOk l = true) :
    (stepOk cfg s l).skippedNoPeriod =
      s.skippedNoPeriod + (if resolvedKey l = "" then 1 else 0) := by
  unfold stepOk
  cases hpn : getPeriodNumber l with
  | none => simp [lineOk, hpn] at h
  | some pk =>
    simp only [stepLine, hpn]
    by_cases hpk : pk = ""
    · simp [hpk, resolvedKey, hpn]
    · by_cases hgl : truthy l.generalLedgerAccount <;>
      by_cases hacc : truthy l.account <;>
      by_cases hop : strLtB pk cfg.startKey <;>
      by_cases hcl : strLeB pk cfg.endKey <;>
      by_cases hpos : getNetValue l > 0 <;>
      by_cases hneg : getNetValue l < 0 <;>
      simp [hpk, hgl, hacc, hop, hcl, hpos, hneg, resolvedKey, hpn]

theorem stepOk_processedOpening (cfg : PeriodConfig) (s : AccState)
    {l : TransactionLine} (h : lineOk l = true) :
    (stepOk cfg s l).processedOpening =
      s.processedOpening +
        (if truthy l.account && inOpening cfg l then 1 else 0) := by
  unfold stepOk
  cases hpn : getPeriodNumber l with
  | none => simp [lineOk, hpn] at h
  | some pk =>
    simp only [stepLine, hpn]
    by_cases hpk : pk = ""
    · simp [hpk, inOpening, resolvedKey, hpn]
    · by_cases hgl : truthy l.generalLedgerAccount <;>
      by_cases hacc : truthy l.account <;>
      by_cases hop : strLtB pk cfg.startKey <;>
      by_cases hcl : strLeB pk cfg.endKey <;>
      by_cases hpos : getNetValue l > 0 <;>
      by_cases hneg : getNetValue l < 0 <;>
      simp [hpk, hgl, hacc, hop, hcl, hpos, hneg, inOpening, resolvedKey, hpn]

theorem stepOk_processedClosing (cfg : PeriodConfig) (s : AccState)
    {l : TransactionLine} (h : lineOk l = true) :
    (stepOk cfg s l).processedClosing =
      s.processedClosing +
        (if truthy l.account && inClosing cfg l then 1 else 0) := by
  unfold stepOk
  cases hpn : getPeriodNumber l with
  | none => simp [lineOk, hpn] at h
  | some pk =>
    simp only [stepLine, hpn]
    by_cases hpk : pk = ""
    · simp [hpk, inClosing, resolvedKey, hpn]
    · by_cases hgl : truthy l.generalLedgerAccount <;>
      by_cases hacc : truthy l.account <;>
      by_cases hop : strLtB pk cfg.startKey <;>
      by_cases hcl : strLeB pk cfg.endKey <;>
      by_cases hpos : getNetValue l > 0 <;>
      by_cases hneg : getNetValue l < 0 <;>
      simp [hpk, hgl, hacc, hop, hcl, hpos, hneg, inClosing, resolvedKey, hpn]

/-! ## Run characterization and order-independence -/

theorem foldlM_stepLine (cfg : PeriodConfig) (lines : List TransactionLine) :
    ∀ s : AccState,
      lines.foldlM (stepLine cfg) s =
        if lines.all lineOk then some (lines.foldl (stepOk cfg) s)
        else Option.none := by
  induction lines with
  | nil => intro s; simp
  | cons l ls ih =>
    intro s
    cases h : lineOk l with
    | false =>
      simp [List.foldlM_cons, stepLine_eq_none cfg s h, h]
    | true =>
      simp [List.foldlM_cons, stepLine_eq_some cfg s h, h, ih]

theorem runLines_eq (cfg : PeriodConfig) (lines : List TransactionLine) :
    runLines cfg lines =
      if lines.all lineOk then some (lines.foldl (stepOk cfg) initState)
      else Option.none :=
  foldlM_stepLine cfg lines initState

/-! ## C2, C3: the same-side normalizer -/

/-- C2: for every raw accumulation quadruple, the normalizer implements the
closing-authoritative policy: the sign of `closingNet = closingDebit -
closingCredit` picks the side of both the opening and closing presentation
(`|openingNet|` lands on that side), a zero closing net falls back to the sign
of `openingNet = openingDebit - openingCredit`, and when both nets are zero
all four fields are zero with the zero balance on the debit side. -/
theorem normalizer_closing_authoritative (od oc cd cc : ℚ) :
    (cd - cc > 0 →
      convertDebitCreditToNetPosition od oc cd cc =
        ⟨|od - oc|, 0, cd - cc, 0⟩) ∧
    (cd - cc < 0 →
      convertDebitCreditToNetPosition od oc cd cc =
        ⟨0, |od - oc|, 0, |cd - cc|⟩) ∧
    (cd - cc = 0 → od - oc > 0 →
      convertDebitCreditToNetPosition od oc cd cc = ⟨od - oc, 0, 0, 0⟩) ∧
    (cd - cc = 0 → od - oc < 0 →
      convertDebitCreditToNetPosition od oc cd cc = ⟨0, |od - oc|, 0, 0⟩) ∧
    (cd - cc = 0 → od - oc = 0 →
      convertDebitCreditToNetPosition od oc cd cc = ⟨0, 0, 0, 0⟩) := by
  unfold convertDebitCreditToNetPosition
  refine ⟨fun h1 => ?_, fun h1 => ?_, fun h1 h2 => ?_, fun h1 h2 => ?_,
    fun h1 h2 => ?_⟩ <;>
    simp only [] <;>
    split_ifs <;> first | rfl | linarith

/-- Witness for C2 at the concrete quadruple `(1, 0, 0, 2)`: the closing net
`-2` is negative, so both balances land on the credit side. -/
theorem normalizer_closing_authoritative_witness :
    convertDebitCreditToNetPosition 1 0 0 2 = ⟨0, 1, 0, 2⟩ := by
  have h := (normalizer_closing_authoritative 1 0 0 2).2.1 (by norm_num)
  simpa using h

/-- C3: every Balance the normalizer produces has all four fields `≥ 0`, and
within each of the opening and closing pairs at most one entry is nonzero. -/
theorem normalizer_invariants (od oc cd cc : ℚ) :
    0 ≤ (convertDebitCreditToNetPosition od oc cd cc).openingDebitBalance ∧
    0 ≤ (convertDebitCreditToNetPosition od oc cd cc).openingCreditBalance ∧
    0 ≤ (convertDebitCreditToNetPosition od oc cd cc).closingDebitBalance ∧
    0 ≤ (convertDebitCreditToNetPosition od oc cd cc).closingCreditBalance ∧
    ((convertDebitCreditToNetPosition od oc cd cc).openingDebitBalance = 0 ∨
      (convertDebitCreditToNetPosition od oc cd cc).openingCreditBalance = 0) ∧
    ((convertDebitCreditToNetPosition od oc cd cc).closingDebitBalance = 0 ∨
      (convertDebitCreditToNetPosition od oc cd cc).closingCreditBalance = 0) := by
  unfold convertDebitCreditToNetPosition
  simp only []
  split_ifs <;>
    refine ⟨?_, ?_, ?_, ?_, ?_, ?_⟩ <;>
    simp <;>
    first
    | positivity
    | linarith

/-! ## C7: the net-value extractor -/

/-- C7: the extractor returns the precomputed signed amount when
`c2g__HomeValue__c` is present and non-empty (well-formed text yields its
value, malformed text resolves to 0), and otherwise returns
`debit - credit` with missing or malformed debit/credit fields parsed as 0.
All functions involved are total: no input raises. -/
theorem net_value_contract :
    (∀ (l : TransactionLine) (q : ℚ),
      l.homeValue = PyValue.num q → getNetValue l = q) ∧
    (∀ l : TransactionLine,
      l.homeValue = PyValue.malformed → getNetValue l = 0) ∧
    (∀ l : TransactionLine,
      l.homeValue = PyValue.none ∨ l.homeValue = PyValue.emptyStr →
        getNetValue l = parseDecimal l.homeDebits - parseDecimal l.homeCredits) ∧
    parseDecimal PyValue.none = 0 ∧
    parseDecimal PyValue.emptyStr = 0 ∧
    parseDecimal PyValue.malformed = 0 := by
  refine ⟨fun l q h => ?_, fun l h => ?_, fun l h => ?_, rfl, rfl, rfl⟩
  · simp [getNetValue, h, parseDecimal]
  · simp [getNetValue, h, parseDecimal]
  · rcases h with h | h <;> simp [getNetValue, h]

/-- Witness for C7: a line with malformed `c2g__HomeValue__c` text resolves to
net 0, and one with an absent `c2g__HomeValue__c` falls back to
`debit - credit = 7 - 2`. -/
theorem net_value_contract_witness :
    getNetValue ⟨some "GL1", Option.none, PyValue.malformed, PyValue.num 7,
        PyValue.num 2, Option.none⟩ = 0 ∧
    getNetValue ⟨some "GL1", Option.none, PyValue.none, PyValue.num 7,
        PyValue.num 2, Option.none⟩ = 5 := by
  constructor
  · exact net_value_contract.2.1 _ rfl
  · have h := net_value_contract.2.2.1
      ⟨some "GL1", Option.none, PyValue.none, PyValue.num 7, PyValue.num 2,
        Option.none⟩ (Or.inl rfl)
    rw [h]
    norm_num [parseDecimal]

/-! ## C1, C10: window membership of the accumulator -/

/-- The per-line accumulation effect asserted by the window-membership claim:
processing the line succeeds, and each of the eight per-account sums receives
exactly the line's contribution, gated by `periodKey < startKey` for the four
opening sums and by `periodKey <= endKey` for the four closing sums (positive
nets feed the debit sums, negative nets feed the credit sums as `abs`, at the
line's own grouping keys only). -/
def WindowDeltaSpec (cfg : PeriodConfig) (s : AccState) (l : TransactionLine)
    (pk : String) : Prop :=
  ∃ s', stepLine cfg s l = some s' ∧ ∀ a : String,
    s'.glOpeningDebits a = s.glOpeningDebits a +
      mapContrib (truthy l.generalLedgerAccount) (keyOf l.generalLedgerAccount)
        (strLtB pk cfg.startKey) (posPart (getNetValue l)) a ∧
    s'.glOpeningCredits a = s.glOpeningCredits a +
      mapContrib (truthy l.generalLedgerAccount) (keyOf l.generalLedgerAccount)
        (strLtB pk cfg.startKey) (negPart (getNetValue l)) a ∧
    s'.glClosingDebits a = s.glClosingDebits a +
      mapContrib (truthy l.generalLedgerAccount) (keyOf l.generalLedgerAccount)
        (strLeB pk cfg.endKey) (posPart (getNetValue l)) a ∧
    s'.glClosingCredits a = s.glClosingCredits a +
      mapContrib (truthy l.generalLedgerAccount) (keyOf l.generalLedgerAccount)
        (strLeB pk cfg.endKey) (negPart (getNetValue l)) a ∧
    s'.accOpeningDebits a = s.accOpeningDebits a +
      mapContrib (truthy l.account) (keyOf l.account)
        (strLtB pk cfg.startKey) (posPart (getNetValue l)) a ∧
    s'.accOpeningCredits a = s.accOpeningCredits a +
      mapContrib (truthy l.account) (keyOf l.account)
        (strLtB pk cfg.startKey) (negPart (getNetValue l)) a ∧
    s'.accClosingDebits a = s.accClosingDebits a +
      mapContrib (truthy l.account) (keyOf l.account)
        (strLeB pk cfg.endKey) (posPart (getNetValue l)) a ∧
    s'.accClosingCredits a = s.accClosingCredits a +
      mapContrib (truthy l.account) (keyOf l.account)
        (strLeB pk cfg.endKey) (negPart (getNetValue l)) a

/-- C1: a line with a resolvable (non-empty) period key is counted toward the
opening sums exactly when its key is strictly below the window start, and
toward the closing sums exactly when its key is at or below the window end;
in particular a key equal to the start key is excluded from the opening sums
(`strLtB` is irreflexive), and is included in the closing sums whenever
`startKey <= endKey`. -/
theorem accumulator_window_boundaries (cfg : PeriodConfig) (s : AccState)
    (l : TransactionLine) (pk : String)
    (hpk : getPeriodNumber l = some pk) (hne : pk ≠ "") :
    WindowDeltaSpec cfg s l pk ∧
      (pk = cfg.startKey → strLtB pk cfg.startKey = false ∧
        (strLeB cfg.startKey cfg.endKey = true → strLeB pk cfg.endKey = true)) := by
  have hok : lineOk l = true := by simp [lineOk, hpk]
  have hrk : resolvedKey l = pk := by simp [resolvedKey, hpk]
  have hio : inOpening cfg l = strLtB pk cfg.startKey := by
    simp [inOpening, hrk, hne]
  have hic : inClosing cfg l = strLeB pk cfg.endKey := by
    simp [inClosing, hrk, hne]
  constructor
  · refine ⟨stepOk cfg s l, stepLine_eq_some cfg s hok, fun a => ?_⟩
    rw [stepOk_glOpeningDebits cfg s hok a, stepOk_glOpeningCredits cfg s hok a,
      stepOk_glClosingDebits cfg s hok a, stepOk_glClosingCredits cfg s hok a,
      stepOk_accOpeningDebits cfg s hok a, stepOk_accOpeningCredits cfg s hok a,
      stepOk_accClosingDebits cfg s hok a, stepOk_accClosingCredits cfg s hok a,
      hio, hic]
    exact ⟨rfl, rfl, rfl, rfl, rfl, rfl, rfl, rfl⟩
  · intro he
    subst he
    exact ⟨strLtB_irrefl _, fun hse => hse⟩

/-- A one-period window `2025/005 .. 2025/005`. -/
def cfgB : PeriodConfig := ⟨"2025005", "2025005"⟩

/-- A boundary line: period `2025/005` equal to the window start, net `+300`,
present on both grouping dimensions. -/
def lineBoundary : TransactionLine :=
  ⟨some "GL1", some "BP1", PyValue.num 300, PyValue.none, PyValue.none,
    some "2025/005"⟩

/-- Witness for C1 at the window boundary: the key `2025005` equals the start
key, so the line is excluded from the opening sums and included in the closing
sums of the one-period window. -/
theorem accumulator_window_boundaries_witness :
    WindowDeltaSpec cfgB initState lineBoundary "2025005" ∧
      strLtB "2025005" cfgB.startKey = false ∧
      strLeB "2025005" cfgB.endKey = true := by
  have h := accumulator_window_boundaries cfgB initState lineBoundary "2025005"
    rfl (by decide)
  exact ⟨h.1, (h.2 rfl).1, (h.2 rfl).2 (by decide)⟩

/-- The per-line effect asserted by the opening-implies-closing claim: the line
is processed without abort and each closing sum moves by exactly the amount the
matching opening sum moves. -/
def OpeningImpliesClosingSpec (cfg : PeriodConfig) (s : AccState)
    (l : TransactionLine) : Prop :=
  ∃ s', stepLine cfg s l = some s' ∧ ∀ a : String,
    s'.glClosingDebits a - s.glClosingDebits a =
      s'.glOpeningDebits a - s.glOpeningDebits a ∧
    s'.glClosingCredits a - s.glClosingCredits a =
      s'.glOpeningCredits a - s.glOpeningCredits a ∧
    s'.accClosingDebits a - s.accClosingDebits a =
      s'.accOpeningDebits a - s.accOpeningDebits a ∧
    s'.accClosingCredits a - s.accClosingCredits a =
      s'.accOpeningCredits a - s.accOpeningCredits a

/-- C10: when the window is consistent (`startKey <= endKey`), every line that
contributes to an opening sum (its key is strictly below the start key)
contributes the same amount to the corresponding closing sum: the opening
window is a subset of the closing window. -/
theorem opening_subset_closing (cfg : PeriodConfig) (s : AccState)
    (l : TransactionLine) (pk : String)
    (hse : strLeB cfg.startKey cfg.endKey = true)
    (hpk : getPeriodNumber l = some pk) (hne : pk ≠ "")
    (hop : strLtB pk cfg.startKey = true) :
    OpeningImpliesClosingSpec cfg s l := by
  have hok : lineOk l = true := by simp [lineOk, hpk]
  have hrk : resolvedKey l = pk := by simp [resolvedKey, hpk]
  have hcl : strLeB pk cfg.endKey = true := strLtB_strLeB_trans hop hse
  have hio : inOpening cfg l = true := by simp [inOpening, hrk, hne, hop]
  have hic : inClosing cfg l = true := by simp [inClosing, hrk, hne, hcl]
  refine ⟨stepOk cfg s l, stepLine_eq_some cfg s hok, fun a => ?_⟩
  rw [stepOk_glOpeningDebits cfg s hok a, stepOk_glOpeningCredits cfg s hok a,
    stepOk_glClosingDebits cfg s hok a, stepOk_glClosingCredits cfg s hok a,
    stepOk_accOpeningDebits cfg s hok a, stepOk_accOpeningCredits cfg s hok a,
    stepOk_accClosingDebits cfg s hok a, stepOk_accClosingCredits cfg s hok a,
    hio, hic]
  refine ⟨by ring, by ring, by ring, by ring⟩

/-- A two-period window `2025/001 .. 2025/012`. -/
def cfgY : PeriodConfig := ⟨"2025001", "2025012"⟩

/-- A prior-year line (period `2024/012`, net `+100`) that belongs to the
opening window of `cfgY`. -/
def linePrior : TransactionLine :=
  ⟨some "GL1", some "BP1", PyValue.num 100, PyValue.none, PyValue.none,
    some "2024/012"⟩

/-- Witness for C10: the prior-year line of the `2025` window moves every
closing sum by exactly its opening contribution. -/
theorem opening_subset_closing_witness :
    OpeningImpliesClosingSpec cfgY initState linePrior :=
  opening_subset_closing cfgY initState linePrior "2024012" (by decide) rfl
    (by decide) (by decide)

/-! ## C5: no account-class restriction on the business-partner dimension -/

/-- A "payables class" test on an account code (code beginning `401`), an
example of the §4.4 family of prefix predicates. -/
def hasCode401 (code : String) : Bool :=
  match code.data with
  | '4' :: '0' :: '1' :: _ => true
  | _ => false

/-- A line posted to a non-payables GL account (`702100`) that carries a
business-partner id. -/
def lineBp : TransactionLine :=
  ⟨some "702100", some "BP1", PyValue.num 5, PyValue.none, PyValue.none,
    some "2025/005"⟩

/-- Counterexample to C5 as stated: it is not true that a line whose GL
account code fails the configured predicate leaves the business-partner
accumulators untouched — the consolidated pass of `_calculate_all_balances`
applies no account-class filter at all, so the `702100`-posted line `lineBp`
(which fails the `401` payables predicate) still adds its net value `5` to the
business-partner closing-debit sum. -/
theorem bp_account_filter_counterexample :
    ¬ (∀ (p : String → Bool) (cfg : PeriodConfig) (s : AccState)
        (l : TransactionLine) (a : String),
        p (keyOf l.generalLedgerAccount) = false →
        (stepLine cfg s l).map (fun t => t.accClosingDebits a) =
          some (s.accClosingDebits a)) := by
  intro hclaim
  have h := hclaim hasCode401 cfgB initState lineBp "BP1" (by decide)
  have hok : lineOk lineBp = true := by decide
  rw [stepLine_eq_some cfgB initState hok, Option.map_some',
    stepOk_accClosingDebits cfgB initState hok "BP1"] at h
  norm_num [mapContrib, initState, posPart,
    (show truthy lineBp.account = true by decide),
    (show keyOf lineBp.account = "BP1" from rfl),
    (show inClosing cfgB lineBp = true by decide),
    (show getNetValue lineBp = 5 from rfl)] at h

/-- The business-partner dimension of the accumulation state. -/
def accDimension (t : AccState) :
    (String → ℚ) × (String → ℚ) × (String → ℚ) × (String → ℚ) :=
  (t.accOpeningDebits, t.accOpeningCredits, t.accClosingDebits,
    t.accClosingCredits)

/-- C5 amended: the business-partner sums are grouped by the business-partner
key and fed by every line carrying one, with no account-class restriction: the
GL account reference of a line has no effect whatsoever on the
business-partner accumulators, and a line without a (truthy) business-partner
key leaves them unchanged. -/
theorem bp_accumulation_no_gl_restriction (cfg : PeriodConfig) (s : AccState)
    (l : TransactionLine) (g₁ g₂ : Option String) :
    (stepLine cfg s { l with generalLedgerAccount := g₁ }).map accDimension =
      (stepLine cfg s { l with generalLedgerAccount := g₂ }).map accDimension ∧
    (truthy l.account = false → lineOk l = true →
      ∃ s', stepLine cfg s l = some s' ∧ accDimension s' = accDimension s) := by
  constructor
  · have hok : ∀ g : Option String,
        lineOk { l with generalLedgerAccount := g } = lineOk l := fun _ => rfl
    cases hlo : lineOk l with
    | false =>
      rw [stepLine_eq_none cfg s (by rw [hok g₁]; exact hlo),
        stepLine_eq_none cfg s (by rw [hok g₂]; exact hlo)]
    | true =>
      have h₁ : lineOk { l with generalLedgerAccount := g₁ } = true := by
        rw [hok g₁]; exact hlo
      have h₂ : lineOk { l with generalLedgerAccount := g₂ } = true := by
        rw [hok g₂]; exact hlo
      rw [stepLine_eq_some cfg s h₁, stepLine_eq_some cfg s h₂,
        Option.map_some', Option.map_some']
      unfold accDimension
      refine congrArg some ?_
      refine Prod.ext ?_ (Prod.ext ?_ (Prod.ext ?_ ?_)) <;>
        funext a <;>
        simp only [stepOk_accOpeningDebits cfg s h₁ a,
          stepOk_accOpeningDebits cfg s h₂ a,
          stepOk_accOpeningCredits cfg s h₁ a,
          stepOk_accOpeningCredits cfg s h₂ a,
          stepOk_accClosingDebits cfg s h₁ a,
          stepOk_accClosingDebits cfg s h₂ a,
          stepOk_accClosingCredits cfg s h₁ a,
          stepOk_accClosingCredits cfg s h₂ a] <;>
        rfl
  · intro hacc hok
    refine ⟨stepOk cfg s l, stepLine_eq_some cfg s hok, ?_⟩
    unfold accDimension
    refine Prod.ext ?_ (Prod.ext ?_ (Prod.ext ?_ ?_)) <;>
      funext a <;>
      simp [stepOk_accOpeningDebits cfg s hok a,
        stepOk_accOpeningCredits cfg s hok a,
        stepOk_accClosingDebits cfg s hok a,
        stepOk_accClosingCredits cfg s hok a, hacc, mapContrib]

/-- Witness for the amended C5: swapping the non-payables GL account `702100`
for the payables account `401000` on a concrete line does not change the
business-partner side of the step at all. -/
theorem bp_accumulation_no_gl_restriction_witness :
    (stepLine cfgB initState
        { lineBp with generalLedgerAccount := some "702100" }).map accDimension =
      (stepLine cfgB initState
        { lineBp with generalLedgerAccount := some "401000" }).map accDimension :=
  (bp_accumulation_no_gl_restriction cfgB initState lineBp
    (some "702100") (some "401000")).1

/-! ## C6: period-key resolution -/

/-- A decimal digit character (code points 48-57). -/
def isDigitB (c : Char) : Bool := 48 ≤ c.toNat && c.toNat ≤ 57

/-- The numeric value denoted by a string of decimal digits. -/
def digitsVal (l : List Char) : ℕ :=
  l.foldl (fun n c => 10 * n + (c.toNat - 48)) 0

/-- Modelled from the spec: the valid period-number set `{0, 1..12, 100}`
(opening, monthly and year-end-adjustment periods, §4.1).  No check against
this set exists anywhere in `src`. -/
def validPeriodNum (n : ℕ) : Bool := n ≤ 12 || n == 100

theorem foldl_digits (l : List Char) : ∀ n : ℕ,
    l.foldl (fun m c => 10 * m + (c.toNat - 48)) n =
      n * 10 ^ l.length + l.foldl (fun m c => 10 * m + (c.toNat - 48)) 0 := by
  induction l with
  | nil => intro n; simp
  | cons c t ih =>
    intro n
    simp only [List.foldl_cons, List.length_cons]
    rw [ih (10 * n + (c.toNat - 48)), ih (10 * 0 + (c.toNat - 48))]
    ring

theorem digitsVal_cons (c : Char) (t : List Char) :
    digitsVal (c :: t) = (c.toNat - 48) * 10 ^ t.length + digitsVal t := by
  simp only [digitsVal, List.foldl_cons]
  rw [foldl_digits t (10 * 0 + (c.toNat - 48))]
  ring

theorem digitsVal_lt (l : List Char) (h : ∀ c ∈ l, isDigitB c = true) :
    digitsVal l < 10 ^ l.length := by
  induction l with
  | nil => simp [digitsVal]
  | cons c t ih =>
    have hd : c.toNat - 48 ≤ 9 := by
      have hc := h c (List.mem_cons_self c t)
      simp [isDigitB] at hc
      omega
    have ht := ih (fun x hx => h x (List.mem_cons_of_mem c hx))
    rw [digitsVal_cons]
    calc (c.toNat - 48) * 10 ^ t.length + digitsVal t
        < (c.toNat - 48) * 10 ^ t.length + 10 ^ t.length := by omega
      _ = (c.toNat - 48 + 1) * 10 ^ t.length := by ring
      _ ≤ 10 * 10 ^ t.length := Nat.mul_le_mul_right _ (by omega)
      _ = 10 ^ (c :: t).length := by rw [List.length_cons]; ring

theorem listLtB_digits {l₁ l₂ : List Char} (hlen : l₁.length = l₂.length)
    (h₁ : ∀ c ∈ l₁, isDigitB c = true) (h₂ : ∀ c ∈ l₂, isDigitB c = true) :
    (listLtB l₁ l₂ = true ↔ digitsVal l₁ < digitsVal l₂) := by
  induction l₁ generalizing l₂ with
  | nil =>
    cases l₂ with
    | nil => simp [listLtB]
    | cons b bs => simp at hlen
  | cons a as ih =>
    cases l₂ with
    | nil => simp at hlen
    | cons b bs =>
      have hlen' : as.length = bs.length := by simpa using hlen
      have ha48 := h₁ a (List.mem_cons_self a as)
      have hb48 := h₂ b (List.mem_cons_self b bs)
      simp [isDigitB] at ha48 hb48
      have hxa := digitsVal_lt as (fun x hx => h₁ x (List.mem_cons_of_mem a hx))
      have hxb := digitsVal_lt bs (fun x hx => h₂ x (List.mem_cons_of_mem b hx))
      rw [hlen'] at hxa
      rw [digitsVal_cons, digitsVal_cons, hlen']
      simp only [listLtB]
      by_cases hab : charLtB a b = true
      · have hab' : a.toNat < b.toNat := by simpa [charLtB] using hab
        rw [if_pos hab]
        refine ⟨fun _ => ?_, fun _ => rfl⟩
        calc (a.toNat - 48) * 10 ^ bs.length + digitsVal as
            < (a.toNat - 48) * 10 ^ bs.length + 10 ^ bs.length := by omega
          _ = (a.toNat - 48 + 1) * 10 ^ bs.length := by ring
          _ ≤ (b.toNat - 48) * 10 ^ bs.length :=
              Nat.mul_le_mul_right _ (by omega)
          _ ≤ (b.toNat - 48) * 10 ^ bs.length + digitsVal bs :=
              Nat.le_add_right _ _
      · by_cases hba : charLtB b a = true
        · have hba' : b.toNat < a.toNat := by simpa [charLtB] using hba
          rw [if_neg hab, if_pos hba]
          refine iff_of_false (by simp) (not_lt.mpr (le_of_lt ?_))
          calc (b.toNat - 48) * 10 ^ bs.length + digitsVal bs
              < (b.toNat - 48) * 10 ^ bs.length + 10 ^ bs.length := by omega
            _ = (b.toNat - 48 + 1) * 10 ^ bs.length := by ring
            _ ≤ (a.toNat - 48) * 10 ^ bs.length :=
                Nat.mul_le_mul_right _ (by omega)
            _ ≤ (a.toNat - 48) * 10 ^ bs.length + digitsVal as :=
                Nat.le_add_right _ _
        · have heq : a.toNat = b.toNat := by
            simp [charLtB] at hab hba
            omega
          rw [if_neg hab, if_neg hba, heq, add_lt_add_iff_left]
          exact ih hlen' (fun x hx => h₁ x (List.mem_cons_of_mem a hx))
            (fun x hx => h₂ x (List.mem_cons_of_mem b hx))

theorem splitSlash_of_not_mem {p : List Char} (h : '/' ∉ p) :
    splitSlash p = [p] := by
  induction p with
  | nil => rfl
  | cons c t ih =>
    simp only [List.mem_cons, not_or] at h
    obtain ⟨h1, h2⟩ := h
    simp only [splitSlash, ih h2]
    rw [if_neg (fun hc => h1 hc.symm)]

theorem splitSlash_append {y p : List Char} (hy : '/' ∉ y) (hp : '/' ∉ p) :
    splitSlash (y ++ '/' :: p) = [y, p] := by
  induction y with
  | nil =>
    show (match splitSlash p with
      | [] => [[]]
      | h :: t => if '/' = '/' then [] :: h :: t else ('/' :: h) :: t) = [[], p]
    rw [splitSlash_of_not_mem hp]
    simp
  | cons c ys ih =>
    simp only [List.mem_cons, not_or] at hy
    obtain ⟨h1, h2⟩ := hy
    show (match splitSlash (ys ++ '/' :: p) with
      | [] => [[]]
      | h :: t => if c = '/' then [] :: h :: t else (c :: h) :: t) =
        [c :: ys, p]
    rw [ih h2]
    show (if c = '/' then [] :: ys :: [p] else (c :: ys) :: [p]) = [c :: ys, p]
    rw [if_neg (fun hc => h1 hc.symm)]

theorem getPeriodNumber_some {l : TransactionLine} {nm : String}
    (h : l.periodName = some nm) :
    getPeriodNumber l =
      (if nm = "" then some ""
       else if nm.data.contains '/' then
         match splitSlash nm.data with
         | [y, p] => some (String.mk (y ++ p))
         | _ => Option.none
       else some "") := by
  unfold getPeriodNumber
  rw [h]

/-- A line tagged with the out-of-range period `2023/999`, net `+5`. -/
def lineBadPeriod : TransactionLine :=
  ⟨some "GL1", Option.none, PyValue.num 5, PyValue.none, PyValue.none,
    some "2023/999"⟩

/-- Counterexample to C6 as stated: a line whose period number lies outside
the valid set `{0, 1..12, 100}` is *not* excluded from accumulation —
`_get_period_number` performs no validation, so the `2023/999` line resolves
to the key `2023999`, which sorts before the `2025001` window start and is
added to the opening-debit sum. -/
theorem period_validation_counterexample :
    ¬ (∀ (cfg : PeriodConfig) (s : AccState) (l : TransactionLine)
        (y p : List Char),
        l.periodName = some (String.mk (y ++ '/' :: p)) →
        validPeriodNum (digitsVal p) = false →
        (stepLine cfg s l).map
            (fun t => t.glOpeningDebits (keyOf l.generalLedgerAccount)) =
          some (s.glOpeningDebits (keyOf l.generalLedgerAccount))) := by
  intro hclaim
  have h := hclaim cfgY initState lineBadPeriod "2023".data "999".data
    (by decide) (by decide)
  have hok : lineOk lineBadPeriod = true := by decide
  rw [stepLine_eq_some cfgY initState hok, Option.map_some',
    stepOk_glOpeningDebits cfgY initState hok] at h
  norm_num [mapContrib, initState, posPart,
    (show truthy lineBadPeriod.generalLedgerAccount = true by decide),
    (show keyOf lineBadPeriod.generalLedgerAccount = "GL1" from rfl),
    (show inOpening cfgY lineBadPeriod = true by decide),
    (show getNetValue lineBadPeriod = 5 from rfl)] at h

/-- C6 amended: `_get_period_number` validates nothing — any `YYYY/NNN`-shaped
name resolves to the bare concatenation of its two pieces (so out-of-set
period numbers like `999` produce keys that take part in window comparisons
and accumulation, as the counterexample shows); a name that is missing, empty
or slashless resolves to the empty key, which the accumulator skips without
crashing; and on equal-width all-digit keys — the shape of keys coming from
well-formed `YYYY/NNN` names and of the `%03d`-padded window boundaries — the
string comparison used by the accumulator agrees exactly with numeric
ordering, also across year boundaries. -/
theorem period_key_resolution_amended :
    (∀ (l : TransactionLine) (y p : List Char),
      l.periodName = some (String.mk (y ++ '/' :: p)) → '/' ∉ y → '/' ∉ p →
      getPeriodNumber l = some (String.mk (y ++ p))) ∧
    (∀ l : TransactionLine,
      (l.periodName = Option.none ∨ l.periodName = some "" ∨
        ∃ nm, l.periodName = some nm ∧ nm.data.contains '/' = false) →
      getPeriodNumber l = some "") ∧
    (∀ k₁ k₂ : String, k₁.data.length = k₂.data.length →
      (∀ c ∈ k₁.data, isDigitB c = true) →
      (∀ c ∈ k₂.data, isDigitB c = true) →
      (strLtB k₁ k₂ = true ↔ digitsVal k₁.data < digitsVal k₂.data)) := by
  refine ⟨fun l y p hname hy hp => ?_, fun l h => ?_, fun k₁ k₂ => listLtB_digits⟩
  · rw [getPeriodNumber_some hname]
    have hne : ¬ (String.mk (y ++ '/' :: p) = "") := by
      intro he
      have h2 : (y ++ '/' :: p) = [] := congrArg String.data he
      simp at h2
    have hcon : (String.mk (y ++ '/' :: p)).data.contains '/' = true := by
      simp [List.contains]
    rw [if_neg hne, if_pos hcon]
    show (match splitSlash (y ++ '/' :: p) with
      | [y, p] => some (String.mk (y ++ p))
      | _ => Option.none) = some (String.mk (y ++ p))
    rw [splitSlash_append hy hp]
  · rcases h with h | h | ⟨nm, hnm, hcon⟩
    · unfold getPeriodNumber
      rw [h]
    · rw [getPeriodNumber_some h, if_pos rfl]
    · rw [getPeriodNumber_some hnm]
      by_cases hne : nm = ""
      · rw [if_pos hne]
      · rw [if_neg hne, if_neg (by rw [hcon]; simp)]

/-- Witness for the amended C6: the out-of-range name `2023/999` resolves to
the unvalidated key `2023999`, and the year-boundary keys `2024012 < 2025001`
compare by string order exactly as the numbers `2024012 < 2025001`. -/
theorem period_key_resolution_amended_witness :
    getPeriodNumber lineBadPeriod = some "2023999" ∧
      (strLtB "2024012" "2025001" = true ↔
        digitsVal "2024012".data < digitsVal "2025001".data) := by
  constructor
  · have h := period_key_resolution_amended.1 lineBadPeriod
      "2023".data "999".data (by decide) (by decide) (by decide)
    simpa using h
  · exact period_key_resolution_amended.2.2 "2024012" "2025001" rfl
      (by decide) (by decide)

/-! ## C8: skipped lines -/

/-- A line whose period `Name` holds two slashes: `_get_period_number`'s tuple
unpacking raises an uncaught `ValueError` on it. -/
def lineCrash : TransactionLine :=
  ⟨some "GL1", some "BP1", PyValue.num 5, PyValue.none, PyValue.none,
    some "2024/0/1"⟩

/-- Counterexample to C8 as stated: not every line with an unresolvable period
key is skipped-and-counted without an error — on the period name `2024/0/1`
(which resolves to no key at all) `_get_period_number` raises an uncaught
`ValueError` that aborts the run instead of incrementing the skip counter. -/
theorem skip_counting_counterexample :
    ¬ (∀ (cfg : PeriodConfig) (s : AccState) (l : TransactionLine),
        (∀ k, getPeriodNumber l = some k → k = "") →
        ∃ s', stepLine cfg s l = some s' ∧
          s'.skippedNoPeriod = s.skippedNoPeriod + 1) := by
  intro hclaim
  obtain ⟨s', hs', -⟩ := hclaim cfgB initState lineCrash
    (fun k hk => by
      rw [show getPeriodNumber lineCrash = Option.none from rfl] at hk
      exact Option.noConfusion hk)
  rw [stepLine_eq_none cfgB initState
    (show lineOk lineCrash = false from rfl)] at hs'
  exact Option.noConfusion hs'

/-- C8 amended: every line whose period name resolves to the *empty* key (name
missing, empty, or slashless) leaves all eight sums untouched and increments
only the skipped-no-period counter (besides the missing-id counters that the
loop bumps before the period check); and over any run in which no line aborts,
the final skipped-no-period statistic — logged at the end of
`_calculate_all_balances` — equals the number of such lines.  A name with two
or more slashes instead aborts the run (see the counterexample). -/
theorem skip_counting_amended :
    (∀ (cfg : PeriodConfig) (s : AccState) (l : TransactionLine),
      getPeriodNumber l = some "" →
      stepLine cfg s l = some { s with
        skippedNoGlAccount := if truthy l.generalLedgerAccount then
          s.skippedNoGlAccount else s.skippedNoGlAccount + 1,
        skippedNoAccount := if truthy l.account then
          s.skippedNoAccount else s.skippedNoAccount + 1,
        skippedNoPeriod := s.skippedNoPeriod + 1 }) ∧
    (∀ (cfg : PeriodConfig) (lines : List TransactionLine),
      lines.all lineOk = true →
      ∃ s, runLines cfg lines = some s ∧
        s.skippedNoPeriod =
          (lines.filter (fun l => resolvedKey l == "")).length) := by
  constructor
  · intro cfg s l h
    simp only [stepLine, h]
    rfl
  · intro cfg lines hall
    have key : ∀ (ls : List TransactionLine) (s : AccState),
        ls.all lineOk = true →
        (ls.foldl (stepOk cfg) s).skippedNoPeriod =
          s.skippedNoPeriod + (ls.filter (fun l => resolvedKey l == "")).length := by
      intro ls
      induction ls with
      | nil => intro s _; simp
      | cons l t ih =>
        intro s hall'
        simp only [List.all_cons, Bool.and_eq_true] at hall'
        simp only [List.foldl_cons, List.filter_cons]
        rw [ih _ hall'.2, stepOk_skippedNoPeriod cfg s hall'.1]
        by_cases hk : resolvedKey l = "" <;> (simp [hk]; try omega)
    refine ⟨lines.foldl (stepOk cfg) initState, ?_, ?_⟩
    · rw [runLines_eq, if_pos hall]
    · rw [key lines initState hall]
      simp [initState]

/-- A line with no period assignment at all. -/
def lineNoPeriod : TransactionLine :=
  ⟨some "GL1", Option.none, PyValue.num 5, PyValue.none, PyValue.none,
    Option.none⟩

/-- Witness for the amended C8: the period-less line is skipped and counted
(here also bumping the missing-business-partner counter), and a one-line run
ends with a skipped-no-period statistic of `1`. -/
theorem skip_counting_amended_witness :
    stepLine cfgB initState lineNoPeriod = some { initState with
        skippedNoAccount := 1, skippedNoPeriod := 1 } ∧
    ∃ s, runLines cfgB [lineNoPeriod] = some s ∧
      s.skippedNoPeriod = ([lineNoPeriod].filter
        (fun l => resolvedKey l == "")).length := by
  constructor
  · have h := skip_counting_amended.1 cfgB initState lineNoPeriod rfl
    simpa [truthy, initState] using h
  · exact skip_counting_amended.2 cfgB [lineNoPeriod] rfl

/-! ## C9: the sign-flip scenario under the independent-sign policy -/

/-- Modelled from the spec: the *independent-sign* normalization policy of
§4.5 — each of the opening and closing balances is presented independently as
`debit = max(net, 0)`, `credit = max(-net, 0)`.  The `normalizationPolicy`
configuration selector of §6 and this policy's branch exist in no source file
under `src` (only the closing-authoritative `_convert_debit_credit_to_net_position`
does); the definition follows the spec's words. -/
def independentSignNormalize
    (openingDebit openingCredit closingDebit closingCredit : ℚ) : Balance :=
  ⟨max (openingDebit - openingCredit) 0,
    max (-(openingDebit - openingCredit)) 0,
    max (closingDebit - closingCredit) 0,
    max (-(closingDebit - closingCredit)) 0⟩

/-- The `+300` line in the opening window of `cfgB` (period `2025/004`). -/
def lineFlipA : TransactionLine :=
  ⟨some "GL1", Option.none, PyValue.num 300, PyValue.none, PyValue.none,
    some "2025/004"⟩

/-- The `-1000` line in the closing-only window of `cfgB` (period
`2025/005`). -/
def lineFlipB : TransactionLine :=
  ⟨some "GL1", Option.none, PyValue.num (-1000), PyValue.none, PyValue.none,
    some "2025/005"⟩

/-- C9: running the real accumulator on `+300` (opening window) and `-1000`
(closing-only window) and normalizing the raw sums of account `GL1` under the
independent-sign policy yields opening `{debit 300, credit 0}` and closing
`{debit 0, credit 700}`. -/
theorem sign_flip_scenario_independent_sign :
    (runLines cfgB [lineFlipA, lineFlipB]).map (fun s =>
        independentSignNormalize (s.glOpeningDebits "GL1")
          (s.glOpeningCredits "GL1") (s.glClosingDebits "GL1")
          (s.glClosingCredits "GL1")) =
      some ⟨300, 0, 0, 700⟩ := by
  have hok1 : lineOk lineFlipA = true := by decide
  have hok2 : lineOk lineFlipB = true := by decide
  rw [runLines_eq, if_pos (by decide : ([lineFlipA, lineFlipB].all lineOk) = true),
    Option.map_some']
  simp only [List.foldl_cons, List.foldl_nil]
  rw [show (stepOk cfgB initState lineFlipA) = stepOk cfgB initState lineFlipA from rfl]
  have e1 := stepOk_glOpeningDebits cfgB (stepOk cfgB initState lineFlipA) hok2 "GL1"
  have e2 := stepOk_glOpeningCredits cfgB (stepOk cfgB initState lineFlipA) hok2 "GL1"
  have e3 := stepOk_glClosingDebits cfgB (stepOk cfgB initState lineFlipA) hok2 "GL1"
  have e4 := stepOk_glClosingCredits cfgB (stepOk cfgB initState lineFlipA) hok2 "GL1"
  rw [e1, e2, e3, e4,
    stepOk_glOpeningDebits cfgB initState hok1 "GL1",
    stepOk_glOpeningCredits cfgB initState hok1 "GL1",
    stepOk_glClosingDebits cfgB initState hok1 "GL1",
    stepOk_glClosingCredits cfgB initState hok1 "GL1"]
  norm_num [mapContrib, initState, posPart, negPart, independentSignNormalize,
    (show truthy lineFlipA.generalLedgerAccount = true by decide),
    (show truthy lineFlipB.generalLedgerAccount = true by decide),
    (show keyOf lineFlipA.generalLedgerAccount = "GL1" from rfl),
    (show keyOf lineFlipB.generalLedgerAccount = "GL1" from rfl),
    (show inOpening cfgB lineFlipA = true by decide),
    (show inOpening cfgB lineFlipB = false by decide),
    (show inClosing cfgB lineFlipA = true by decide),
    (show inClosing cfgB lineFlipB = true by decide),
    (show getNetValue lineFlipA = 300 from rfl),
    (show getNetValue lineFlipB = -1000 from rfl)]

end SaftReporting
